import Mathlib

/-!
Verification development for the octosql repository sources.

Shallow embedding of:
- `src/execution/group_by.go` (the `Aggregate` interface, `GroupBy`, `GroupByStream.Next`);
- `src/unnamed/part_000` (the `physical` package `DescribeNode` / `DescribeExpr` traversal);
- `src/cmd/root.go` (the typecheck panic-recovery wrappers, the output-sink
  selection logic of `rootCmd.RunE`, and the once-guarded database accessors).

Types of the repository that are referenced but whose source files are not
included (the composite-key `HashMap`, `Record`, `RecordStream`, `octosql.Variables`,
aggregate implementations) are modelled from the specification, as marked in the
doc comments below.
-/

namespace Exec

/-- SQL values flowing through the engine.  At the `group_by.go` layer the Go
code manipulates them as `interface\x7b\x7d`; `unitKey` embeds the Go value
`struct\x7b\x7d\x7b\x7d` that `GroupByStream.Next` appends as the canonical
group key when the key tuple is empty (group_by.go line 100). -/
inductive Value where
  | null
  | int (n : Int)
  | str (s : String)
  | boolean (b : Bool)
  | unitKey
deriving DecidableEq

abbrev VariableName := String

/-- A composite group key: `[]interface\x7b\x7d` in group_by.go. -/
abbrev Key := List Value

/-- Modelled from the spec: `octosql.Variables`, a name-to-value mapping used
for expression evaluation (its source file is not included). -/
abbrev Variables := List (VariableName × Value)

/-- Modelled from the spec: a record is its ordered field names plus values
(the retraction-free record model of this source tree). -/
structure Record where
  fieldNames : List VariableName
  values : List Value
deriving DecidableEq

/-- `NewRecordFromSlice` of the execution package (used at group_by.go line 132). -/
def NewRecordFromSlice (fields : List VariableName) (values : List Value) : Record :=
  { fieldNames := fields, values := values }

/-- Modelled from the spec: `Record.Value(field)` looks the field up by name;
a missing field yields the zero value (null). -/
def Record.value (r : Record) (name : VariableName) : Value :=
  match (r.fieldNames.zip r.values).find? (fun p => decide (p.1 = name)) with
  | some p => p.2
  | none => Value.null

/-- Modelled from the spec: `Record.AsVariables()` exposes the record fields as
a variable mapping. -/
def Record.asVariables (r : Record) : Variables :=
  r.fieldNames.zip r.values

/-- Modelled from the spec: `Variables.MergeWith` merges two scopes and fails on
a conflicting variable name. -/
def Variables.mergeWith (vs other : Variables) : Except String Variables :=
  if other.any (fun p => vs.any (fun q => decide (q.1 = p.1))) then
    Except.error "conflicting variable names"
  else
    Except.ok (vs ++ other)

/-- An execution `Expression` is consumed through its single method
`ExpressionValue(variables)` (group_by.go line 93); we embed it as that method. -/
abbrev Expression := Variables → Except String Value

/-- The state of one aggregate object.  Aggregate implementations are not part
of the included sources, so (modelled from the spec) we represent the hidden
mutable state generically as the log of `AddRecord(key, value)` calls. -/
abbrev AggState := List (Key × Value)

/-- The `Aggregate` interface of group_by.go lines 12-16: it exposes exactly
`AddRecord(key, value) error`, `GetAggregated(key) (interface\x7b\x7d, error)`
and the display-name method `String()` (embedded as `name`). -/
structure Aggregate where
  addRecord : AggState → Key → Value → Except String AggState
  getAggregated : AggState → Key → Except String Value
  name : String

/-- The method set of the `Aggregate` interface exactly as declared at
group_by.go lines 12-16. -/
def aggregateInterfaceMethods : List String :=
  ["AddRecord", "GetAggregated", "String"]

/-- Modelled from the spec: the built-in `count` aggregate counts the records
added for a key. -/
def countAggregate : Aggregate where
  addRecord := fun st k v => Except.ok (st ++ [(k, v)])
  getAggregated := fun st k =>
    Except.ok (Value.int (Int.ofNat (st.filter (fun p => decide (p.1 = k))).length))
  name := "count"

/-- Modelled from the spec: the composite-key `HashMap` used for `groups`
(its source file is not included).  Only `struct\x7b\x7d` values are ever
stored by `GroupByStream`, so the map is its insertion-ordered list of keys;
`GetIterator` yields keys in first-insertion order. -/
structure HashMap where
  keys : List Key
deriving DecidableEq

/-- `HashMap.Set`: a repeated key keeps its first-insertion position. -/
def HashMap.set (m : HashMap) (k : Key) : HashMap :=
  if k ∈ m.keys then m else { keys := m.keys ++ [k] }

/-- Outcome of a source `RecordStream` once its records run out. -/
inductive Terminal where
  | endOfStream
  | error (msg : String)
deriving DecidableEq

/-- A finite source `RecordStream`: pending records, then a terminal outcome
(`ErrEndOfStream` or an error), which repeats on further pulls. -/
structure SourceStream where
  items : List Record
  terminal : Terminal
deriving DecidableEq

/-- The Go `error` component of `Next`: nil is `Option.none`; `ErrEndOfStream`
is distinguished by identity from wrapped message errors. -/
inductive GoError where
  | endOfStream
  | message (msg : String)
deriving DecidableEq

/-- One entry of the index-parallel `fields[i]` / `aggregates[i]` slices of
`GroupByStream` (the Go code only ever uses them zipped by index, and the
aggregate object carries its own hidden state). -/
structure AggSlot where
  field : VariableName
  agg : Aggregate
  state : AggState

/-- The `GroupByStream` state (group_by.go lines 50-62). -/
structure GroupByStream where
  source : SourceStream
  vars : Variables
  key : List Expression
  groups : HashMap
  slots : List AggSlot
  fieldNames : List VariableName
  iterator : Option (List Key)

/-- `GroupBy.Get` (group_by.go lines 30-48): builds the stream state.  The Go
struct literal omits `groups`, so the map starts as its zero value, modelled
as the empty map. -/
def GroupBy.Get (source : SourceStream) (vars : Variables)
    (key : List Expression) (slots : List AggSlot) : GroupByStream :=
  { source := source, vars := vars, key := key,
    groups := { keys := [] }, slots := slots, fieldNames := [], iterator := none }

/-- `errors.Wrap(err, msg)` renders as `msg ++ ": " ++ err`. -/
def wrapErr (msg e : String) : String := msg ++ ": " ++ e

/-- The loop of group_by.go lines 91-97: evaluate every key expression in
order, wrapping a failure with its index. -/
def evalKeyExprs (vars : Variables) : Nat → List Expression → Except String Key
  | _, [] => Except.ok []
  | i, e :: es =>
    match e vars with
    | Except.error err =>
        Except.error (wrapErr ("could not evaluate group key expression with index " ++ toString i) err)
    | Except.ok v =>
      match evalKeyExprs vars (i + 1) es with
      | Except.ok vs => Except.ok (v :: vs)
      | Except.error err => Except.error err

/-- The loop of group_by.go lines 108-113: call `AddRecord` on each aggregate
in order.  On a failure the aggregates already visited keep their updated
state (the Go loop returns mid-way), hence the partial slot list is returned
alongside the error. -/
def addRecordToSlots (key : Key) (record : Record) :
    Nat → List AggSlot → Option String × List AggSlot
  | _, [] => (none, [])
  | i, s :: ss =>
    match s.agg.addRecord s.state key (record.value s.field) with
    | Except.error e =>
        (some (wrapErr ("could not add record value to aggregate with index " ++ toString i) e),
         s :: ss)
    | Except.ok st =>
      match addRecordToSlots key record (i + 1) ss with
      | (none, ss2) => (none, { s with state := st } :: ss2)
      | (some e, ss2) => (some e, { s with state := st } :: ss2)

/-- One iteration of the drain loop body of `GroupByStream.Next`
(group_by.go lines 86-113) for a pulled source record: merge variables,
evaluate the key tuple, substitute the unit key for an empty tuple, insert the
key into `groups`, then feed every aggregate. -/
def processRecord (st : GroupByStream) (record : Record) : Option String × GroupByStream :=
  match Variables.mergeWith st.vars record.asVariables with
  | Except.error e => (some (wrapErr "could not merge stream variables with record" e), st)
  | Except.ok vars =>
    match evalKeyExprs vars 0 st.key with
    | Except.error e => (some e, st)
    | Except.ok key0 =>
      let key := if key0.isEmpty then [Value.unitKey] else key0
      let groups := st.groups.set key
      match addRecordToSlots key record 0 st.slots with
      | (none, slots) => (none, { st with groups := groups, slots := slots })
      | (some e, slots) => (some e, { st with groups := groups, slots := slots })

/-- The output field names built at end of stream (group_by.go lines 70-79):
`fmt.Sprintf("%s_%s", fields[i], aggregates[i].String())`. -/
def mkFieldNames (slots : List AggSlot) : List VariableName :=
  slots.map (fun s => s.field ++ "_" ++ s.agg.name)

/-- The loop of group_by.go lines 123-130: `GetAggregated` for every aggregate
at the given key, each failure wrapped with the same message. -/
def getAggValues (key : Key) : List AggSlot → Except String (List Value)
  | [] => Except.ok []
  | s :: ss =>
    match s.agg.getAggregated s.state key with
    | Except.error e => Except.error (wrapErr "could not get aggregate value" e)
    | Except.ok v =>
      match getAggValues key ss with
      | Except.ok vs => Except.ok (v :: vs)
      | Except.error e => Except.error e

/-- The iterator phase of `GroupByStream.Next` (group_by.go lines 117-132):
advance the group iterator; if exhausted return `(nil, ErrEndOfStream)`,
otherwise return the aggregated record TOGETHER with `ErrEndOfStream`
(line 132 returns both). -/
def iterStep (keys : List Key) (st : GroupByStream) :
    (Option Record × Option GoError) × GroupByStream :=
  match keys with
  | [] => ((none, some GoError.endOfStream), { st with iterator := some [] })
  | k :: rest =>
    let st1 := { st with iterator := some rest }
    match getAggValues k st1.slots with
    | Except.error e => ((none, some (GoError.message e)), st1)
    | Except.ok values =>
        ((some (NewRecordFromSlice st1.fieldNames values), some GoError.endOfStream), st1)

/-- The drain loop of `GroupByStream.Next` (group_by.go lines 66-115): pull
source records until the source terminal; at `ErrEndOfStream` build the output
field names, take the group iterator and fall through to the iterator phase;
any other failure is returned and the consumed prefix stays consumed. -/
def drainLoop : List Record → GroupByStream → (Option Record × Option GoError) × GroupByStream
  | [], st =>
    let st1 := { st with source := { st.source with items := [] } }
    match st1.source.terminal with
    | Terminal.error e =>
        ((none, some (GoError.message (wrapErr "could not get next source record" e))), st1)
    | Terminal.endOfStream =>
      let st2 := { st1 with fieldNames := mkFieldNames st1.slots,
                            iterator := some st1.groups.keys }
      iterStep st2.groups.keys st2
  | record :: rs, st =>
    let st1 := { st with source := { st.source with items := rs } }
    match processRecord st1 record with
    | (none, st2) => drainLoop rs st2
    | (some e, st2) => ((none, some (GoError.message e)), st2)

/-- `GroupByStream.Next` (group_by.go lines 64-133), returning the Go pair
`(*Record, error)` plus the successor state. -/
def GroupByStream.Next (st : GroupByStream) : (Option Record × Option GoError) × GroupByStream :=
  match st.iterator with
  | some keys => iterStep keys st
  | none => drainLoop st.source.items st

/-- Repeatedly call `Next`, collecting every returned record, stopping at the
first call that yields no record (fuel-bounded). -/
def collectNext : GroupByStream → Nat → List Record
  | _, 0 => []
  | st, n + 1 =>
    match GroupByStream.Next st with
    | ((some r, _), st2) => r :: collectNext st2 n
    | ((none, _), _) => []

/-- First-insertion order of a key sequence: the fold of `HashMap.Set` over the
keys, read back from the map.  This is the spec-side description of the group
emission order. -/
def firstInsertionOrder (ks : List Key) : List Key :=
  ks.foldl (fun acc k => if k ∈ acc then acc else acc ++ [k]) []

/-- Total variant of `getAggValues` used to state run-level theorems. -/
def getAggValuesD (key : Key) (slots : List AggSlot) : List Value :=
  match getAggValues key slots with
  | Except.ok vs => vs
  | Except.error _ => []

end Exec

namespace CmdM

/-- Outcome of running a Go function body that may panic.  In this code base
every panic carries a message built from a string (for example the
`panic(fmt.Sprintf(...))` calls of the physical package). -/
inductive GoResult (α : Type) where
  | ok (val : α)
  | panicked (msg : String)

/-- The deferred-recover pattern of root.go lines 495-499 and 509-513: a panic
value `r` is converted into the returned error `typecheck error: r`. -/
def recoverTypecheck (α : Type) (body : GoResult α) : Except String α :=
  match body with
  | GoResult.ok v => Except.ok v
  | GoResult.panicked r => Except.error ("typecheck error: " ++ r)

/-- `typecheckNode` (root.go lines 494-506): runs `node.Typecheck` under a
deferred recover and returns the physical node and name mapping, or the
recovered panic as an error. -/
def typecheckNode (Node Mapping : Type) (body : GoResult (Node × Mapping)) :
    Except String (Node × Mapping) :=
  recoverTypecheck (Node × Mapping) body

/-- `typecheckExpr` (root.go lines 508-520): same recovery wrapper around
`expr.Typecheck`. -/
def typecheckExpr (Expr : Type) (body : GoResult Expr) : Except String Expr :=
  recoverTypecheck Expr body

/-- The inputs that decide the plan rewriting and sink selection of
`rootCmd.RunE` (root.go lines 265-293, 300-312 and 369-461). -/
structure RunConfig where
  describe : Bool
  output : String
  limit : Nat
  orderByCount : Nat
  planNoRetractions : Bool
deriving DecidableEq

/-- The sink chosen by the `switch output` of root.go lines 373-461. -/
inductive Sink where
  | batchPrinter (live : Bool) (format : String) (limit : Nat)
  | eagerPrinter (format : String)
  | nativeStream (wrappedBatchOrderBy : Bool)
deriving DecidableEq

/-- The plan rewriting and sink selection of `rootCmd.RunE`:
lines 265-276 absorb ORDER BY into an `OrderBy` node when the schema has
`NoRetractions`; lines 277-293 then absorb LIMIT into a `Limit` node and zero
`outputOptions.Limit`; lines 300-312 zero limit and order-by in describe mode;
lines 373-461 pick the sink, where `stream_native` first wraps a pending batch
ORDER BY and then rejects a still-pending LIMIT. -/
def runESelectSink (cfg : RunConfig) : Except String Sink :=
  let obCount1 : Nat :=
    if cfg.planNoRetractions && decide (0 < cfg.orderByCount) then 0 else cfg.orderByCount
  let limit1 : Nat :=
    if cfg.planNoRetractions && decide (obCount1 = 0) then 0 else cfg.limit
  let limit2 : Nat := if cfg.describe then 0 else limit1
  let obCount2 : Nat := if cfg.describe then 0 else obCount1
  match cfg.output with
  | "live_table" => Except.ok (Sink.batchPrinter true "table" limit2)
  | "batch_table" => Except.ok (Sink.batchPrinter false "table" limit2)
  | "csv" =>
      if !cfg.planNoRetractions then Except.ok (Sink.batchPrinter false "csv" limit2)
      else Except.ok (Sink.eagerPrinter "csv")
  | "json" =>
      if !cfg.planNoRetractions then Except.ok (Sink.batchPrinter false "json" limit2)
      else Except.ok (Sink.eagerPrinter "json")
  | "stream_native" =>
      if decide (0 < limit2) then Except.error "LIMIT clause not supported with stream output"
      else Except.ok (Sink.nativeStream (decide (0 < obCount2)))
  | other => Except.error ("invalid output format: \x27" ++ other ++ "\x27")

/-- Whether a selected sink is the eager append-only printer. -/
def Sink.isEager : Sink → Bool
  | Sink.eagerPrinter _ => true
  | _ => false

/-- The captured state of one database accessor closure of root.go
lines 132-148 (and 170-189): the `sync.Once` guard, the number of times the
guarded body ran, and the captured `db` and `err` variables. -/
structure OnceState where
  done : Bool
  calls : Nat
  db : Option String
  err : Option String
deriving DecidableEq

/-- One invocation of a database accessor closure: `once.Do` runs the plugin
only if the guard has not fired, then the closure returns the captured error
(wrapped) if set, else the captured database value. -/
def dbAccessor (dbType dbName : String) (runPlugin : Except String String)
    (st : OnceState) : Except String String × OnceState :=
  let st1 :=
    if st.done then st
    else
      match runPlugin with
      | Except.ok d => { done := true, calls := st.calls + 1, db := some d, err := none }
      | Except.error e => { done := true, calls := st.calls + 1, db := st.db, err := some e }
  match st1.err with
  | some e =>
      (Except.error ("could not run " ++ dbType ++ " plugin " ++ dbName ++ ": " ++ e), st1)
  | none => (Except.ok (st1.db.getD ""), st1)

/-- Invoke the accessor closure `n` times in sequence, collecting results. -/
def invokeRepeatedly (dbType dbName : String) (runPlugin : Except String String) :
    OnceState → Nat → List (Except String String) × OnceState
  | st, 0 => ([], st)
  | st, n + 1 =>
    let (r, st1) := dbAccessor dbType dbName runPlugin st
    let (rs, st2) := invokeRepeatedly dbType dbName runPlugin st1 n
    (r :: rs, st2)

/-- The fresh closure state: guard not fired, zero-valued captures. -/
def freshOnce : OnceState :=
  { done := false, calls := 0, db := none, err := none }

end CmdM

namespace Phys

mutual

/-- Modelled from the spec plus the usage in `src/unnamed/part_000`: the
physical plan node sum type (the Go source is a tagged struct; each variant
below carries exactly the payload read by `DescribeNode`). -/
inductive PNode where
  | datasource (dsName : String) (predicates : PExprs)
  | distinct (source : PNode)
  | filter (predicate : PExpr) (source : PNode)
  | groupBy (aggregates : NamedExprs) (key : PExprs) (source : PNode)
  | streamJoin (left : PNode) (right : PNode) (leftKey : PExprs) (rightKey : PExprs)
  | lookupJoin (source : PNode) (joined : PNode)
  | mapNode (outputs : NamedExprs) (source : PNode)
  | orderBy (key : DirExprs) (source : PNode)
  | requalifier (qualifier : String) (source : PNode)
  | tableValuedFunction (tvfName : String) (arguments : TVFArgs)
  | unnest (unnestField : String) (source : PNode)

/-- The physical expression sum type as read by `DescribeExpr`.  A constant
carries its `Value.String()` rendering and a type assertion the rendering of
its target type, the only uses Describe makes of them. -/
inductive PExpr where
  | varRef (varName : String) (isLevel0 : Bool)
  | constant (valueRendering : String)
  | functionCall (funcName : String) (arguments : PExprs)
  | and (arguments : PExprs)
  | or (arguments : PExprs)
  | queryExpression (source : PNode)
  | coalesce (arguments : PExprs)
  | tuple (arguments : PExprs)
  | typeAssertion (targetType : String) (expression : PExpr)

/-- A slice of expressions (`[]Expression`). -/
inductive PExprs where
  | nil
  | cons (head : PExpr) (tail : PExprs)

/-- Index-parallel named expressions: `GroupBy.Aggregates[i].Name` with
`AggregateExpressions[i]`, and `Schema.Fields[i].Name` with
`Map.Expressions[i]`. -/
inductive NamedExprs where
  | nil
  | cons (edgeName : String) (head : PExpr) (tail : NamedExprs)

/-- Index-parallel `OrderBy.Key[i]` with `DirectionMultipliers[i]`. -/
inductive DirExprs where
  | nil
  | cons (directionMultiplier : Int) (head : PExpr) (tail : DirExprs)

/-- The in-memory contents of the Go map
`TableValuedFunction.Arguments map[string]TableValuedFunctionArgument`,
as an association list; Go `range` iterates it in an unspecified order. -/
inductive TVFArgs where
  | nil
  | cons (argName : String) (arg : TVFArg) (tail : TVFArgs)

/-- A table-valued function argument: expression, table or descriptor. -/
inductive TVFArg where
  | expression (e : PExpr)
  | table (t : PNode)
  | descriptor (descriptorValue : String)

end

/-- Number of entries of a table-valued function argument map. -/
def TVFArgs.argCount : TVFArgs → Nat
  | TVFArgs.nil => 0
  | TVFArgs.cons _ _ t => t.argCount + 1

mutual

/-- Modelled from the spec: a `graph.Node` produced by Describe - a labelled
vertex with ordered scalar fields (`AddField`) and ordered named child edges
(`AddChild`). -/
inductive GNode where
  | mk (nodeLabel : String) (nodeFields : List (String × String)) (children : GChildren)

/-- The ordered child-edge list of a `graph.Node`. -/
inductive GChildren where
  | nil
  | cons (edgeName : String) (child : GNode) (tail : GChildren)

end

deriving instance DecidableEq for GNode, GChildren

/-- Child edges as a plain list. -/
def GChildren.toList : GChildren → List (String × GNode)
  | GChildren.nil => []
  | GChildren.cons n c t => (n, c) :: t.toList

/-- Concatenation of child-edge lists. -/
def GChildren.append : GChildren → GChildren → GChildren
  | GChildren.nil, r => r
  | GChildren.cons n c t, r => GChildren.cons n c (t.append r)

/-- Reversal of a child-edge list: a legitimate Go map iteration order for the
counterexample below (Go randomizes map range order). -/
def GChildren.rev : GChildren → GChildren
  | GChildren.nil => GChildren.nil
  | GChildren.cons n c t => t.rev.append (GChildren.cons n c GChildren.nil)

mutual

/-- `DescribeNode` (part_000 lines 10-129), parameterized by `ord`, the
unspecified Go map iteration order over table-valued function arguments,
modelled as a reordering applied to the argument edges of every
`tableValuedFunction` vertex.  The calls
`DescribeExpr(Expression\x7bAnd\x7b...\x7d\x7d)` and
`DescribeExpr(Expression\x7bTuple\x7b...\x7d\x7d)` on freshly built wrapper
expressions are inlined by one unfolding step of `DescribeExpr`. -/
def describeNode (ord : GChildren → GChildren) : PNode → GNode
  | PNode.datasource dsName predicates =>
    GNode.mk dsName []
      (match predicates with
       | PExprs.nil => GChildren.nil
       | _ =>
         GChildren.cons "predicate"
           (GNode.mk "and" [] (describeArgChildren ord 0 predicates)) GChildren.nil)
  | PNode.distinct source =>
    GNode.mk "distinct" [] (GChildren.cons "source" (describeNode ord source) GChildren.nil)
  | PNode.filter predicate source =>
    GNode.mk "filter" []
      (GChildren.cons "predicate" (describeExpr ord predicate)
        (GChildren.cons "source" (describeNode ord source) GChildren.nil))
  | PNode.groupBy aggregates key source =>
    GNode.mk "group by" []
      (describeNamedChildren ord aggregates
        (GChildren.cons "key" (GNode.mk "tuple" [] (describeArgChildren ord 0 key))
          (GChildren.cons "source" (describeNode ord source) GChildren.nil)))
  | PNode.streamJoin left right leftKey rightKey =>
    GNode.mk "join" []
      (GChildren.cons "left" (describeNode ord left)
        (GChildren.cons "right" (describeNode ord right)
          (GChildren.cons "left_key" (GNode.mk "tuple" [] (describeArgChildren ord 0 leftKey))
            (GChildren.cons "right_key" (GNode.mk "tuple" [] (describeArgChildren ord 0 rightKey))
              GChildren.nil))))
  | PNode.lookupJoin source joined =>
    GNode.mk "lookup join" []
      (GChildren.cons "source" (describeNode ord source)
        (GChildren.cons "joined" (describeNode ord joined) GChildren.nil))
  | PNode.mapNode outputs source =>
    GNode.mk "map" []
      (describeNamedChildren ord outputs
        (GChildren.cons "source" (describeNode ord source) GChildren.nil))
  | PNode.orderBy key source =>
    GNode.mk "sort" []
      (describeDirChildren ord key
        (GChildren.cons "source" (describeNode ord source) GChildren.nil))
  | PNode.requalifier qualifier source =>
    GNode.mk "requalifier" [("new qualifier", qualifier)]
      (GChildren.cons "source" (describeNode ord source) GChildren.nil)
  | PNode.tableValuedFunction tvfName arguments =>
    GNode.mk tvfName [] (ord (describeTVFChildren ord arguments))
  | PNode.unnest unnestField source =>
    GNode.mk "unnest" [("field", unnestField)]
      (GChildren.cons "source" (describeNode ord source) GChildren.nil)

/-- `DescribeExpr` (part_000 lines 131-190). -/
def describeExpr (ord : GChildren → GChildren) : PExpr → GNode
  | PExpr.varRef varName isLevel0 =>
    GNode.mk "variable"
      [("name", varName), ("is_level_0", if isLevel0 then "true" else "false")]
      GChildren.nil
  | PExpr.constant valueRendering =>
    GNode.mk "constant" [("value", valueRendering)] GChildren.nil
  | PExpr.functionCall funcName arguments =>
    GNode.mk "function" [(funcName, "")] (describeArgChildren ord 0 arguments)
  | PExpr.and arguments => GNode.mk "and" [] (describeArgChildren ord 0 arguments)
  | PExpr.or arguments => GNode.mk "or" [] (describeArgChildren ord 0 arguments)
  | PExpr.queryExpression source =>
    GNode.mk "subquery" [] (GChildren.cons "source" (describeNode ord source) GChildren.nil)
  | PExpr.coalesce arguments => GNode.mk "coalesce" [] (describeArgChildren ord 0 arguments)
  | PExpr.tuple arguments => GNode.mk "tuple" [] (describeArgChildren ord 0 arguments)
  | PExpr.typeAssertion targetType expression =>
    GNode.mk "type assertion" [("type", targetType)]
      (GChildren.cons "value" (describeExpr ord expression) GChildren.nil)

/-- The `arg_%d`-named child edges of an expression slice. -/
def describeArgChildren (ord : GChildren → GChildren) : Nat → PExprs → GChildren
  | _, PExprs.nil => GChildren.nil
  | i, PExprs.cons e es =>
    GChildren.cons ("arg_" ++ toString i) (describeExpr ord e)
      (describeArgChildren ord (i + 1) es)

/-- Named child edges (GroupBy aggregates, Map outputs) followed by `rest`. -/
def describeNamedChildren (ord : GChildren → GChildren) :
    NamedExprs → GChildren → GChildren
  | NamedExprs.nil, rest => rest
  | NamedExprs.cons n e es, rest =>
    GChildren.cons n (describeExpr ord e) (describeNamedChildren ord es rest)

/-- `asc`/`desc`-named child edges of the OrderBy key, followed by `rest`. -/
def describeDirChildren (ord : GChildren → GChildren) :
    DirExprs → GChildren → GChildren
  | DirExprs.nil, rest => rest
  | DirExprs.cons m e es, rest =>
    GChildren.cons (if m = 1 then "asc" else "desc") (describeExpr ord e)
      (describeDirChildren ord es rest)

/-- The argument edges of a table-valued function vertex, in the stored
association-list order (before `ord` is applied). -/
def describeTVFChildren (ord : GChildren → GChildren) : TVFArgs → GChildren
  | TVFArgs.nil => GChildren.nil
  | TVFArgs.cons n a as =>
    GChildren.cons n (describeTVFArg ord a) (describeTVFChildren ord as)

/-- One table-valued function argument (part_000 lines 100-116). -/
def describeTVFArg (ord : GChildren → GChildren) : TVFArg → GNode
  | TVFArg.expression e => describeExpr ord e
  | TVFArg.table t => describeNode ord t
  | TVFArg.descriptor d => GNode.mk "descriptor" [("value", d)] GChildren.nil

end

mutual

/-- No table-valued function vertex of the plan has more than one argument
(the sublanguage on which Describe is order-independent). -/
def PNode.noMulti : PNode → Bool
  | PNode.datasource _ predicates => PExprs.noMulti predicates
  | PNode.distinct source => PNode.noMulti source
  | PNode.filter predicate source => PExpr.noMulti predicate && PNode.noMulti source
  | PNode.groupBy aggregates key source =>
    NamedExprs.noMulti aggregates && (PExprs.noMulti key && PNode.noMulti source)
  | PNode.streamJoin left right leftKey rightKey =>
    PNode.noMulti left && (PNode.noMulti right && (PExprs.noMulti leftKey && PExprs.noMulti rightKey))
  | PNode.lookupJoin source joined => PNode.noMulti source && PNode.noMulti joined
  | PNode.mapNode outputs source => NamedExprs.noMulti outputs && PNode.noMulti source
  | PNode.orderBy key source => DirExprs.noMulti key && PNode.noMulti source
  | PNode.requalifier _ source => PNode.noMulti source
  | PNode.tableValuedFunction _ arguments =>
    decide (TVFArgs.argCount arguments ≤ 1) && TVFArgs.noMulti arguments
  | PNode.unnest _ source => PNode.noMulti source

/-- `PNode.noMulti` on the plan nodes nested inside an expression. -/
def PExpr.noMulti : PExpr → Bool
  | PExpr.varRef _ _ => true
  | PExpr.constant _ => true
  | PExpr.functionCall _ arguments => PExprs.noMulti arguments
  | PExpr.and arguments => PExprs.noMulti arguments
  | PExpr.or arguments => PExprs.noMulti arguments
  | PExpr.queryExpression source => PNode.noMulti source
  | PExpr.coalesce arguments => PExprs.noMulti arguments
  | PExpr.tuple arguments => PExprs.noMulti arguments
  | PExpr.typeAssertion _ expression => PExpr.noMulti expression

/-- Pointwise `PExpr.noMulti`. -/
def PExprs.noMulti : PExprs → Bool
  | PExprs.nil => true
  | PExprs.cons e es => PExpr.noMulti e && PExprs.noMulti es

/-- Pointwise `PExpr.noMulti`. -/
def NamedExprs.noMulti : NamedExprs → Bool
  | NamedExprs.nil => true
  | NamedExprs.cons _ e es => PExpr.noMulti e && NamedExprs.noMulti es

/-- Pointwise `PExpr.noMulti`. -/
def DirExprs.noMulti : DirExprs → Bool
  | DirExprs.nil => true
  | DirExprs.cons _ e es => PExpr.noMulti e && DirExprs.noMulti es

/-- Pointwise `TVFArg.noMulti`. -/
def TVFArgs.noMulti : TVFArgs → Bool
  | TVFArgs.nil => true
  | TVFArgs.cons _ a as => TVFArg.noMulti a && TVFArgs.noMulti as

/-- `noMulti` of the payload of one argument. -/
def TVFArg.noMulti : TVFArg → Bool
  | TVFArg.expression e => PExpr.noMulti e
  | TVFArg.table t => PNode.noMulti t
  | TVFArg.descriptor _ => true

end

end Phys

namespace Exec

/-- Spec-side description of the slot states after the drain: fold
`AddRecord` over all source records in order. -/
def foldSlots (keyOf : Record → Key) (items : List Record) (slots : List AggSlot) : List AggSlot :=
  items.foldl (fun sl r => (addRecordToSlots (keyOf r) r 0 sl).2) slots

/-- A one-field record used by the concrete GroupBy runs below. -/
def c1Record : Record := { fieldNames := ["v"], values := [Value.int 1] }

/-- A single `count` aggregate over column `v`, fresh state. -/
def c1Slots : List AggSlot := [{ field := "v", agg := countAggregate, state := [] }]

/-- A GroupBy stream with an empty key-expression list and a `count` aggregate
over a one-record source. -/
def c1State : GroupByStream :=
  GroupBy.Get { items := [c1Record], terminal := Terminal.endOfStream } [] [] c1Slots

/-- A GroupBy stream with an empty key-expression list and a `count` aggregate
over an EMPTY source (the first source pull already yields `ErrEndOfStream`). -/
def c2State : GroupByStream :=
  GroupBy.Get { items := [], terminal := Terminal.endOfStream } [] [] c1Slots

end Exec

namespace Phys

/-- A two-entry table-valued function argument map. -/
def c6Args : TVFArgs :=
  TVFArgs.cons "a" (TVFArg.descriptor "x")
    (TVFArgs.cons "b" (TVFArg.descriptor "y") TVFArgs.nil)

/-- A `poll`-style table-valued function node with two arguments. -/
def c6Node : PNode := PNode.tableValuedFunction "poll" c6Args

end Phys

namespace Exec

/-- The empty-key substitution of group_by.go lines 99-101: an empty key tuple
becomes the canonical unit key. -/
def unitize (k : Key) : Key := if k.isEmpty then [Value.unitKey] else k

/-- Spec-side description of the group map after the drain: fold `Set` of the
per-record key over all source records in order. -/
def groupsFold (keyOf : Record → Key) (items : List Record) (g : HashMap) : HashMap :=
  items.foldl (fun acc r => acc.set (keyOf r)) g

end Exec

open Exec CmdM Phys

/-- Shape of the iterator phase result: the error component is never nil, and a
record is only ever returned together with `ErrEndOfStream`. -/
theorem iterStep_shape (keys : List Key) (st : GroupByStream) :
    (iterStep keys st).1.2 ≠ none ∧
      ((iterStep keys st).1.1 ≠ none → (iterStep keys st).1.2 = some GoError.endOfStream) := by
  cases keys with
  | nil => simp [iterStep]
  | cons k rest =>
    cases h : getAggValues k { st with iterator := some rest }.slots with
    | error e => simp [iterStep, h]
    | ok values => simp [iterStep, h]

/-- Shape of the drain phase result: the error component is never nil, and a
record is only ever returned together with `ErrEndOfStream`. -/
theorem drainLoop_shape (items : List Record) : ∀ st : GroupByStream,
    (drainLoop items st).1.2 ≠ none ∧
      ((drainLoop items st).1.1 ≠ none →
        (drainLoop items st).1.2 = some GoError.endOfStream) := by
  induction items with
  | nil =>
    intro st
    cases hterm : st.source.terminal with
    | error e => simp [drainLoop, hterm]
    | endOfStream =>
      have h := iterStep_shape
        ({ st with source := { st.source with items := [] } }).groups.keys
        { st with source := { st.source with items := [] },
                  fieldNames := mkFieldNames ({ st with source := { st.source with items := [] } }).slots,
                  iterator := some ({ st with source := { st.source with items := [] } }).groups.keys }
      simpa [drainLoop, hterm] using h
  | cons r rs ih =>
    intro st
    cases h : processRecord { st with source := { st.source with items := rs } } r with
    | mk err st2 =>
      cases err with
      | none => simpa [drainLoop, h] using ih st2
      | some e => simp [drainLoop, h]

/-- C1: the claim asserts `Next` returns exactly one of a record, the
`EndOfStream` sentinel, or an error, never a record together with the
sentinel.  The code (group_by.go line 132) returns every group record
TOGETHER with `ErrEndOfStream`, so the claim fails; the amended statement
proved here is what holds: the error component of `Next` is never nil, and
whenever a record is returned the accompanying error is exactly
`ErrEndOfStream` (so a record is ALWAYS returned together with the
sentinel, and a nil-error record result never occurs). -/
theorem groupByStream_next_c1 (st : GroupByStream) :
    (GroupByStream.Next st).1.2 ≠ none ∧
      ((GroupByStream.Next st).1.1 ≠ none →
        (GroupByStream.Next st).1.2 = some GoError.endOfStream) := by
  cases h : st.iterator with
  | some keys =>
    have := iterStep_shape keys st
    simpa [GroupByStream.Next, h] using this
  | none =>
    have := drainLoop_shape st.source.items st
    simpa [GroupByStream.Next, h] using this

/-- C1 counterexample: a concrete `GroupByStream` whose first `Next` call
returns a record and `ErrEndOfStream` at the same time, refuting the mutual
exclusion asserted by the claim. -/
theorem groupByStream_next_c1_counterexample :
    (GroupByStream.Next c1State).1 =
      (some (NewRecordFromSlice ["v_count"] [Value.int 1]), some GoError.endOfStream) := by
  decide

/-- C1 witness: the amended theorem applied at the concrete stream that emits
a record. -/
theorem groupByStream_next_c1_witness :
    (GroupByStream.Next c1State).1.2 = some GoError.endOfStream :=
  (groupByStream_next_c1 c1State).2 (by decide)

/-- C2: the claim asserts that an empty-group-key GroupBy over an empty source
emits exactly one record whose count is 0.  In the code the canonical unit key
is only inserted per incoming record (group_by.go lines 99-103), so with an
empty source no group is ever created: the stream emits NO record; its first
`Next` immediately returns the bare `ErrEndOfStream` sentinel.  This theorem
proves the amended behaviour for every empty-source GroupBy stream. -/
theorem groupBy_empty_source_c2 (vars : Variables) (keyExprs : List Expression)
    (slots : List AggSlot) (n : Nat) :
    (GroupByStream.Next
        (GroupBy.Get { items := [], terminal := Terminal.endOfStream } vars keyExprs slots)).1 =
      (none, some GoError.endOfStream) ∧
    collectNext
        (GroupBy.Get { items := [], terminal := Terminal.endOfStream } vars keyExprs slots) n = [] := by
  refine ⟨rfl, ?_⟩
  cases n with
  | zero => rfl
  | succ m => rfl

/-- C2 counterexample: the concrete empty-key `count` GroupBy over the empty
source emits zero records (not one record with count 0), and its first `Next`
is the bare sentinel. -/
theorem groupBy_empty_source_c2_counterexample :
    collectNext c2State 2 = [] ∧
      (GroupByStream.Next c2State).1 = (none, some GoError.endOfStream) := by
  decide

/-- C4: the claim asserts the `Aggregate` interface exposes
`AddRecord`, `RemoveRecord`, `GetAggregated` and a display name.  The
interface declared at group_by.go lines 12-16 has NO `RemoveRecord`; the
amended statement is that the interface exposes exactly `AddRecord`,
`GetAggregated` and the display-name method `String` - extensionally, an
aggregate is fully determined by those three members, so no retraction
capability exists. -/
theorem aggregate_interface_c4 :
    ("RemoveRecord" ∉ aggregateInterfaceMethods) ∧
      (∀ a b : Aggregate, a.addRecord = b.addRecord → a.getAggregated = b.getAggregated →
        a.name = b.name → a = b) := by
  refine ⟨by decide, ?_⟩
  intro a b h1 h2 h3
  cases a
  cases b
  simp_all

/-- C4 counterexample: the declared method set contains `AddRecord`,
`GetAggregated` and `String` but not `RemoveRecord`. -/
theorem aggregate_interface_c4_counterexample :
    "AddRecord" ∈ aggregateInterfaceMethods ∧ "GetAggregated" ∈ aggregateInterfaceMethods ∧
      "String" ∈ aggregateInterfaceMethods ∧ "RemoveRecord" ∉ aggregateInterfaceMethods := by
  decide

/-- C4 witness: the extensionality part applied at the concrete `count`
aggregate. -/
theorem aggregate_interface_c4_witness :
    countAggregate = countAggregate ∧ "RemoveRecord" ∉ aggregateInterfaceMethods :=
  ⟨aggregate_interface_c4.2 countAggregate countAggregate rfl rfl rfl,
   aggregate_interface_c4.1⟩

/-- `AddRecord` only changes aggregate state: each slot keeps its column and
its aggregate object. -/
theorem addRecordToSlots_proj (k : Key) (r : Record) : ∀ (i : Nat) (ss : List AggSlot),
    ((addRecordToSlots k r i ss).2).map (fun s => (s.field, s.agg)) =
      ss.map (fun s => (s.field, s.agg)) := by
  intro i ss
  induction ss generalizing i with
  | nil => rfl
  | cons s ss ih =>
    simp only [addRecordToSlots]
    cases h : s.agg.addRecord s.state k (r.value s.field) with
    | error e => simp
    | ok st2 =>
      have ih2 := ih (i + 1)
      cases h2 : addRecordToSlots k r (i + 1) ss with
      | mk fst snd =>
        rw [h2] at ih2
        cases fst with
        | none => simpa using ih2
        | some e => simpa using ih2

/-- `AddRecord` keeps every aggregate object. -/
theorem addRecordToSlots_aggs (k : Key) (r : Record) (i : Nat) (ss : List AggSlot) :
    ((addRecordToSlots k r i ss).2).map (fun s => s.agg) = ss.map (fun s => s.agg) := by
  have h := addRecordToSlots_proj k r i ss
  have h1 : ((addRecordToSlots k r i ss).2).map (fun s => s.agg) =
      (((addRecordToSlots k r i ss).2).map (fun s => (s.field, s.agg))).map (fun p => p.2) := by
    simp [List.map_map, Function.comp]
  have h2 : ss.map (fun s => s.agg) =
      (ss.map (fun s => (s.field, s.agg))).map (fun p => p.2) := by
    simp [List.map_map, Function.comp]
  rw [h1, h, ← h2]

/-- `AddRecord` keeps the output field names. -/
theorem addRecordToSlots_names (k : Key) (r : Record) (i : Nat) (ss : List AggSlot) :
    mkFieldNames ((addRecordToSlots k r i ss).2) = mkFieldNames ss := by
  have h := addRecordToSlots_proj k r i ss
  have h1 : mkFieldNames ((addRecordToSlots k r i ss).2) =
      (((addRecordToSlots k r i ss).2).map (fun s => (s.field, s.agg))).map
        (fun p => p.1 ++ "_" ++ p.2.name) := by
    simp [mkFieldNames, List.map_map, Function.comp]
  have h2 : mkFieldNames ss =
      (ss.map (fun s => (s.field, s.agg))).map (fun p => p.1 ++ "_" ++ p.2.name) := by
    simp [mkFieldNames, List.map_map, Function.comp]
  rw [h1, h, ← h2]

/-- When no aggregate can fail, the `AddRecord` loop succeeds. -/
theorem addRecordToSlots_ok (k : Key) (r : Record) : ∀ (i : Nat) (ss : List AggSlot),
    (∀ a ∈ ss.map (fun s => s.agg), ∀ (stt : AggState) (kk : Key) (vv : Value),
      ∃ st2, a.addRecord stt kk vv = Except.ok st2) →
    (addRecordToSlots k r i ss).1 = none := by
  intro i ss
  induction ss generalizing i with
  | nil => intro _; rfl
  | cons s ss ih =>
    intro ha
    obtain ⟨st2, h⟩ := ha s.agg (by simp) s.state k (r.value s.field)
    have ih2 := ih (i + 1) (fun a haa => ha a (by simp; right; simpa using haa))
    simp only [addRecordToSlots, h]
    cases h2 : addRecordToSlots k r (i + 1) ss with
    | mk fst snd =>
      rw [h2] at ih2
      simp at ih2
      subst ih2
      simp

/-- When no aggregate can fail, `GetAggregated` over all slots succeeds with
the values described by `getAggValuesD`. -/
theorem getAggValues_ok : ∀ (slots : List AggSlot) (k : Key),
    (∀ a ∈ slots.map (fun s => s.agg), ∀ (stt : AggState) (kk : Key),
      ∃ v, a.getAggregated stt kk = Except.ok v) →
    getAggValues k slots = Except.ok (getAggValuesD k slots) := by
  intro slots
  induction slots with
  | nil => intro k _; rfl
  | cons s ss ih =>
    intro k hg
    obtain ⟨v, hv⟩ := hg s.agg (by simp) s.state k
    have ih2 := ih k (fun a haa => hg a (by simp; right; simpa using haa))
    have hL : getAggValues k (s :: ss) = Except.ok (v :: getAggValuesD k ss) := by
      simp only [getAggValues, hv, ih2]
    have hD : getAggValuesD k (s :: ss) = v :: getAggValuesD k ss := by
      simp only [getAggValuesD, hL]
    rw [hL, hD]

/-- Processing one record touches only `groups` and the aggregate states, and
keeps every aggregate object and the output field names. -/
theorem processRecord_shape (st : GroupByStream) (r : Record) :
    ∃ g sl, (processRecord st r).2 = { st with groups := g, slots := sl } ∧
      mkFieldNames sl = mkFieldNames st.slots ∧
      sl.map (fun s => s.agg) = st.slots.map (fun s => s.agg) := by
  simp only [processRecord]
  split
  · exact ⟨st.groups, st.slots, rfl, rfl, rfl⟩
  · split
    · exact ⟨st.groups, st.slots, rfl, rfl, rfl⟩
    · rename_i vars hm key0 hk
      split
      · rename_i slots2 h2
        refine ⟨st.groups.set (if key0.isEmpty then [Value.unitKey] else key0), slots2, rfl, ?_, ?_⟩
        · have := addRecordToSlots_names (if key0.isEmpty then [Value.unitKey] else key0) r 0 st.slots
          rw [h2] at this
          simpa using this
        · have := addRecordToSlots_aggs (if key0.isEmpty then [Value.unitKey] else key0) r 0 st.slots
          rw [h2] at this
          simpa using this
      · rename_i e2 slots2 h2
        refine ⟨st.groups.set (if key0.isEmpty then [Value.unitKey] else key0), slots2, rfl, ?_, ?_⟩
        · have := addRecordToSlots_names (if key0.isEmpty then [Value.unitKey] else key0) r 0 st.slots
          rw [h2] at this
          simpa using this
        · have := addRecordToSlots_aggs (if key0.isEmpty then [Value.unitKey] else key0) r 0 st.slots
          rw [h2] at this
          simpa using this

/-- Success characterization of `processRecord` under the evaluation oracles. -/
theorem processRecord_ok (st : GroupByStream) (r : Record) (mvr : Variables) (k0 : Key)
    (hm : Variables.mergeWith st.vars r.asVariables = Except.ok mvr)
    (hk : evalKeyExprs mvr 0 st.key = Except.ok k0)
    (ha : ∀ a ∈ st.slots.map (fun s => s.agg), ∀ (stt : AggState) (kk : Key) (vv : Value),
      ∃ st2, a.addRecord stt kk vv = Except.ok st2) :
    processRecord st r =
      (none, { st with groups := st.groups.set (unitize k0),
                       slots := (addRecordToSlots (unitize k0) r 0 st.slots).2 }) := by
  have hok := addRecordToSlots_ok (unitize k0) r 0 st.slots ha
  simp only [processRecord, hm, hk, unitize] at hok ⊢
  cases h2 : addRecordToSlots (if k0.isEmpty then [Value.unitKey] else k0) r 0 st.slots with
  | mk fst snd =>
    rw [h2] at hok
    simp at hok
    subst hok
    simp [h2]

/-- The iterator phase does not touch source, slots or field names, and always
leaves the iterator set. -/
theorem iterStep_state (keys : List Key) (st : GroupByStream) :
    (iterStep keys st).2.source = st.source ∧ (iterStep keys st).2.slots = st.slots ∧
      (iterStep keys st).2.fieldNames = st.fieldNames ∧
      (∃ rest, (iterStep keys st).2.iterator = some rest) := by
  cases keys with
  | nil => simp [iterStep]
  | cons k rest =>
    simp only [iterStep]
    split
    · simp
    · simp

/-- The iterator phase never touches the source stream. -/
theorem iterStep_source (keys : List Key) (st : GroupByStream) :
    (iterStep keys st).2.source = st.source :=
  (iterStep_state keys st).1

/-- A record emitted by the iterator phase carries the stream field names. -/
theorem iterStep_record (keys : List Key) (st : GroupByStream) (r : Record)
    (e : Option GoError) (st2 : GroupByStream)
    (h : iterStep keys st = ((some r, e), st2)) :
    r.fieldNames = st.fieldNames := by
  cases keys with
  | nil => simp [iterStep] at h
  | cons k rest =>
    simp only [iterStep] at h
    split at h
    · simp at h
    · rename_i values hval
      simp [NewRecordFromSlice] at h
      obtain ⟨⟨h3, _⟩, _⟩ := h
      rw [← h3]

/-- A record emitted by the drain phase carries the field names built from the
stream slots, and the successor state is in the iterator phase with those
field names. -/
theorem drainLoop_record_names : ∀ (items : List Record) (st : GroupByStream)
    (r : Record) (e : Option GoError) (st2 : GroupByStream),
    drainLoop items st = ((some r, e), st2) →
    r.fieldNames = mkFieldNames st.slots ∧ st2.fieldNames = mkFieldNames st.slots ∧
      ∃ rest, st2.iterator = some rest := by
  intro items
  induction items with
  | nil =>
    intro st r e st2 h
    simp only [drainLoop] at h
    split at h
    · simp at h
    · rename_i hterm
      have hrec := iterStep_record _ _ _ _ _ h
      have hst := iterStep_state
        ({ st with source := { st.source with items := [] } } : GroupByStream).groups.keys
        { st with source := { st.source with items := [] },
                  fieldNames := mkFieldNames
                    ({ st with source := { st.source with items := [] } } : GroupByStream).slots,
                  iterator := some
                    ({ st with source := { st.source with items := [] } } : GroupByStream).groups.keys }
      rw [h] at hst
      obtain ⟨_, _, hfn, rest, hiter⟩ := hst
      exact ⟨by simpa using hrec, by simpa using hfn, rest, hiter⟩
  | cons rc rs ih =>
    intro st r e st2 h
    simp only [drainLoop] at h
    split at h
    · rename_i stp hp
      have hih := ih _ _ _ _ h
      have hsh := processRecord_shape { st with source := { st.source with items := rs } } rc
      obtain ⟨g, sl, hval, hnm, _⟩ := hsh
      rw [hp] at hval
      simp at hval
      subst hval
      simpa [hnm] using hih
    · simp at h

/-- Every record collected from an iterator-phase state carries that state
field names. -/
theorem collect_iter_names : ∀ (fuel : Nat) (st : GroupByStream) (keys : List Key),
    st.iterator = some keys → ∀ r ∈ collectNext st fuel, r.fieldNames = st.fieldNames := by
  intro fuel
  induction fuel with
  | zero => intro st keys hit r hr; simp [collectNext] at hr
  | succ n ih =>
    intro st keys hit r hr
    simp only [collectNext] at hr
    have hnext : GroupByStream.Next st = iterStep keys st := by
      simp [GroupByStream.Next, hit]
    rw [hnext] at hr
    cases hi : iterStep keys st with
    | mk res st2 =>
      cases res with
      | mk rec2 err =>
        rw [hi] at hr
        cases rec2 with
        | none => simp at hr
        | some r0 =>
          simp at hr
          have hst := iterStep_state keys st
          rw [hi] at hst
          obtain ⟨_, _, hfn, rest, hiter⟩ := hst
          rcases hr with h1 | h2
          · rw [h1]
            exact iterStep_record keys st r0 err st2 hi
          · have := ih st2 rest hiter r h2
            rw [this, hfn]

/-- C5: every record emitted by a GroupBy stream carries field names that are
the source column name joined to the aggregate display name by an underscore
(group_by.go lines 70-79), and those names constitute the record schema of the
output. -/
theorem groupBy_output_names_c5 (items : List Record) (terminal : Terminal)
    (vars : Variables) (keyExprs : List Expression) (slots : List AggSlot)
    (fuel : Nat) (r : Record)
    (hr : r ∈ collectNext
      (GroupBy.Get { items := items, terminal := terminal } vars keyExprs slots) fuel) :
    r.fieldNames = slots.map (fun s => s.field ++ "_" ++ s.agg.name) := by
  cases fuel with
  | zero => simp [collectNext] at hr
  | succ n =>
    simp only [collectNext] at hr
    have hnext : GroupByStream.Next
        (GroupBy.Get { items := items, terminal := terminal } vars keyExprs slots) =
        drainLoop items (GroupBy.Get { items := items, terminal := terminal } vars keyExprs slots) := by
      simp [GroupByStream.Next, GroupBy.Get]
    rw [hnext] at hr
    cases hd : drainLoop items
        (GroupBy.Get { items := items, terminal := terminal } vars keyExprs slots) with
    | mk res st2 =>
      cases res with
      | mk rec2 err =>
        rw [hd] at hr
        cases rec2 with
        | none => simp at hr
        | some r0 =>
          obtain ⟨h1, h2, rest, h3⟩ := drainLoop_record_names items _ r0 err st2 hd
          simp at hr
          rcases hr with hh | hh
          · subst hh
            rw [h1]
            rfl
          · have := collect_iter_names n st2 rest h3 r hh
            rw [this, h2]
            rfl

/-- C5 witness: the concrete one-record count GroupBy emits a record named
`v_count`. -/
theorem groupBy_output_names_c5_witness :
    (NewRecordFromSlice ["v_count"] [Value.int 1]).fieldNames =
      c1Slots.map (fun s => s.field ++ "_" ++ s.agg.name) :=
  groupBy_output_names_c5 [c1Record] Terminal.endOfStream [] [] c1Slots 2
    (NewRecordFromSlice ["v_count"] [Value.int 1]) (by decide)

/-- The keys of the folded group map, as a plain list fold. -/
theorem groupsFold_keys (kf : Record → Key) : ∀ (items : List Record) (g : HashMap),
    (groupsFold kf items g).keys =
      (items.map kf).foldl (fun acc k => if k ∈ acc then acc else acc ++ [k]) g.keys := by
  intro items
  induction items with
  | nil => intro g; rfl
  | cons r rs ih =>
    intro g
    simp only [groupsFold, List.foldl_cons, List.map_cons]
    have := ih (g.set (kf r))
    simp only [groupsFold] at this
    rw [this]
    congr 1
    simp only [HashMap.set]
    split <;> rfl

/-- Inserting into an accumulator never more than doubles its length bound. -/
theorem foldl_insert_length : ∀ (ks : List Key) (acc : List Key),
    (ks.foldl (fun acc k => if k ∈ acc then acc else acc ++ [k]) acc).length ≤
      acc.length + ks.length := by
  intro ks
  induction ks with
  | nil => intro acc; simp
  | cons k ks ih =>
    intro acc
    simp only [List.foldl_cons, List.length_cons]
    refine (ih _).trans ?_
    split
    · omega
    · simp
      omega

/-- First-insertion order never exceeds the input length. -/
theorem firstInsertionOrder_length (ks : List Key) :
    (firstInsertionOrder ks).length ≤ ks.length := by
  simpa [firstInsertionOrder] using foldl_insert_length ks []

/-- Inserting into a duplicate-free accumulator keeps it duplicate-free. -/
theorem foldl_insert_nodup : ∀ (ks : List Key) (acc : List Key), acc.Nodup →
    (ks.foldl (fun acc k => if k ∈ acc then acc else acc ++ [k]) acc).Nodup := by
  intro ks
  induction ks with
  | nil => intro acc h; simpa
  | cons k ks ih =>
    intro acc h
    simp only [List.foldl_cons]
    apply ih
    split
    · exact h
    · rename_i hnot
      simp [List.nodup_append, h, hnot]

/-- The first-insertion order of a key sequence has no duplicates. -/
theorem firstInsertionOrder_nodup (ks : List Key) : (firstInsertionOrder ks).Nodup :=
  foldl_insert_nodup ks [] (by simp)

/-- The slot fold keeps every aggregate object. -/
theorem foldSlots_aggs (kf : Record → Key) : ∀ (items : List Record) (slots : List AggSlot),
    (foldSlots kf items slots).map (fun s => s.agg) = slots.map (fun s => s.agg) := by
  intro items
  induction items with
  | nil => intro slots; rfl
  | cons r rs ih =>
    intro slots
    simp only [foldSlots, List.foldl_cons]
    have := ih ((addRecordToSlots (kf r) r 0 slots).2)
    simp only [foldSlots] at this
    rw [this, addRecordToSlots_aggs]

/-- The slot fold keeps the output field names. -/
theorem foldSlots_names (kf : Record → Key) : ∀ (items : List Record) (slots : List AggSlot),
    mkFieldNames (foldSlots kf items slots) = mkFieldNames slots := by
  intro items
  induction items with
  | nil => intro slots; rfl
  | cons r rs ih =>
    intro slots
    simp only [foldSlots, List.foldl_cons]
    have := ih ((addRecordToSlots (kf r) r 0 slots).2)
    simp only [foldSlots] at this
    rw [this, addRecordToSlots_names]

/-- Drain characterization: when the source terminates normally and no
evaluation step can fail, the drain loop consumes everything, folds every
record key into the group map and every record value into the aggregates, and
enters the iterator phase over the insertion-ordered group keys. -/
theorem drainLoop_ok (mv : Record → Variables) (kf0 : Record → Key) :
    ∀ (items : List Record) (st : GroupByStream),
    st.source.terminal = Terminal.endOfStream →
    (∀ r ∈ items, Variables.mergeWith st.vars r.asVariables = Except.ok (mv r)) →
    (∀ r ∈ items, evalKeyExprs (mv r) 0 st.key = Except.ok (kf0 r)) →
    (∀ a ∈ st.slots.map (fun s => s.agg), ∀ (stt : AggState) (kk : Key) (vv : Value),
      ∃ st2, a.addRecord stt kk vv = Except.ok st2) →
    drainLoop items st =
      iterStep (groupsFold (fun r => unitize (kf0 r)) items st.groups).keys
        { st with
          source := { items := [], terminal := Terminal.endOfStream },
          groups := groupsFold (fun r => unitize (kf0 r)) items st.groups,
          slots := foldSlots (fun r => unitize (kf0 r)) items st.slots,
          fieldNames := mkFieldNames st.slots,
          iterator := some (groupsFold (fun r => unitize (kf0 r)) items st.groups).keys } := by
  intro items
  induction items with
  | nil =>
    intro st hterm hm hk ha
    cases st with
    | mk src svars skey sgroups sslots sfn sit =>
      cases src with
      | mk sitems sterm =>
        simp only at hterm
        subst hterm
        rfl
  | cons rc rs ih =>
    intro st hterm hm hk ha
    have hp := processRecord_ok { st with source := { st.source with items := rs } } rc
      (mv rc) (kf0 rc) (hm rc (by simp)) (hk rc (by simp)) ha
    have hstep : drainLoop (rc :: rs) st =
        drainLoop rs { st with source := { st.source with items := rs },
                               groups := st.groups.set (unitize (kf0 rc)),
                               slots := (addRecordToSlots (unitize (kf0 rc)) rc 0 st.slots).2 } := by
      simp only [drainLoop, hp]
    rw [hstep]
    have hih := ih { st with source := { st.source with items := rs },
                             groups := st.groups.set (unitize (kf0 rc)),
                             slots := (addRecordToSlots (unitize (kf0 rc)) rc 0 st.slots).2 }
      (by simpa using hterm)
      (fun r hr => hm r (by simp [hr]))
      (fun r hr => hk r (by simp [hr]))
      (by
        intro a haa stt kk vv
        apply ha
        have := addRecordToSlots_aggs (unitize (kf0 rc)) rc 0 st.slots
        simpa [this] using haa)
    rw [hih]
    simp only [groupsFold, foldSlots, List.foldl_cons, addRecordToSlots_names]

/-- Collecting from an iterator-phase state with enough fuel yields exactly one
record per pending group key, in order, each carrying the aggregated values
for its key. -/
theorem collectNext_iter : ∀ (keys : List Key) (fuel : Nat) (st : GroupByStream),
    st.iterator = some keys → keys.length ≤ fuel →
    (∀ a ∈ st.slots.map (fun s => s.agg), ∀ (stt : AggState) (kk : Key),
      ∃ v, a.getAggregated stt kk = Except.ok v) →
    collectNext st fuel =
      keys.map (fun k => NewRecordFromSlice st.fieldNames (getAggValuesD k st.slots)) := by
  intro keys
  induction keys with
  | nil =>
    intro fuel st hit _ _
    cases fuel with
    | zero => rfl
    | succ n =>
      have hnext : GroupByStream.Next st = iterStep [] st := by
        simp [GroupByStream.Next, hit]
      simp only [collectNext, hnext, iterStep]
      rfl
  | cons k rest ih =>
    intro fuel st hit hlen hg
    cases fuel with
    | zero => simp at hlen
    | succ n =>
      have hnext : GroupByStream.Next st = iterStep (k :: rest) st := by
        simp [GroupByStream.Next, hit]
      have hvals := getAggValues_ok st.slots k hg
      have hres : iterStep (k :: rest) st =
          ((some (NewRecordFromSlice st.fieldNames (getAggValuesD k st.slots)),
            some GoError.endOfStream), { st with iterator := some rest }) := by
        simp only [iterStep]
        have : getAggValues k ({ st with iterator := some rest } : GroupByStream).slots =
            Except.ok (getAggValuesD k st.slots) := hvals
        rw [this]
      have hrest := ih n { st with iterator := some rest } rfl
        (by simp at hlen; omega)
        (by simpa using hg)
      simp only [collectNext, hnext, hres, hrest, List.map_cons]

/-- When the first `Next` lands in the iterator phase, collection coincides
with collection from the landed state. -/
theorem collectNext_next_eq (st stF : GroupByStream) (keys : List Key)
    (h : GroupByStream.Next st = iterStep keys stF) (h2 : stF.iterator = some keys) :
    ∀ fuel, collectNext st fuel = collectNext stF fuel := by
  intro fuel
  cases fuel with
  | zero => rfl
  | succ n =>
    have h3 : GroupByStream.Next stF = iterStep keys stF := by
      simp [GroupByStream.Next, h2]
    simp only [collectNext, h, h3]

/-- C3: over a source that terminates normally and whose per-record evaluation
cannot fail, the first `Next` call of a fresh GroupBy stream consumes the
entire source (so nothing is emitted before end-of-stream), and the stream
then produces exactly one record per distinct group key - the emission keys
are duplicate-free and ordered by first insertion into the group hashmap -
each record carrying the aggregated values for its key. -/
theorem groupBy_batch_semantics_c3 (items : List Record) (vars : Variables)
    (keyExprs : List Expression) (slots : List AggSlot)
    (mv : Record → Variables) (kf0 : Record → Key)
    (hm : ∀ r ∈ items, Variables.mergeWith vars r.asVariables = Except.ok (mv r))
    (hk : ∀ r ∈ items, evalKeyExprs (mv r) 0 keyExprs = Except.ok (kf0 r))
    (ha : ∀ a ∈ slots.map (fun s => s.agg), ∀ (stt : AggState) (kk : Key) (vv : Value),
      ∃ st2, a.addRecord stt kk vv = Except.ok st2)
    (hg : ∀ a ∈ slots.map (fun s => s.agg), ∀ (stt : AggState) (kk : Key),
      ∃ v, a.getAggregated stt kk = Except.ok v) :
    (GroupByStream.Next
        (GroupBy.Get { items := items, terminal := Terminal.endOfStream }
          vars keyExprs slots)).2.source.items = [] ∧
    (firstInsertionOrder (items.map (fun r => unitize (kf0 r)))).Nodup ∧
    collectNext
        (GroupBy.Get { items := items, terminal := Terminal.endOfStream }
          vars keyExprs slots) (items.length + 1) =
      (firstInsertionOrder (items.map (fun r => unitize (kf0 r)))).map
        (fun k => NewRecordFromSlice (mkFieldNames slots)
          (getAggValuesD k (foldSlots (fun r => unitize (kf0 r)) items slots))) := by
  have hdrain := drainLoop_ok mv kf0 items
    (GroupBy.Get { items := items, terminal := Terminal.endOfStream } vars keyExprs slots)
    rfl hm hk ha
  have hnext : GroupByStream.Next
      (GroupBy.Get { items := items, terminal := Terminal.endOfStream } vars keyExprs slots) =
      drainLoop items
        (GroupBy.Get { items := items, terminal := Terminal.endOfStream } vars keyExprs slots) := by
    simp [GroupByStream.Next, GroupBy.Get]
  have hkeys : (groupsFold (fun r => unitize (kf0 r)) items
      (GroupBy.Get { items := items, terminal := Terminal.endOfStream }
        vars keyExprs slots).groups).keys =
      firstInsertionOrder (items.map (fun r => unitize (kf0 r))) := by
    rw [groupsFold_keys]
    rfl
  refine ⟨?_, firstInsertionOrder_nodup _, ?_⟩
  · rw [hnext, hdrain, iterStep_source]
  · rw [collectNext_next_eq _ _ _ (hnext.trans hdrain) rfl]
    rw [collectNext_iter _ (items.length + 1) _ rfl ?_ ?_]
    · rw [hkeys]
      rfl
    · rw [hkeys]
      have h1 := firstInsertionOrder_length (items.map (fun r => unitize (kf0 r)))
      simp at h1 ⊢
      omega
    · intro a haa stt kk
      apply hg
      rw [← foldSlots_aggs (fun r => unitize (kf0 r)) items slots]
      exact haa

/-- C3 witness: a one-record count GroupBy consumes its source on the first
`Next` and emits exactly one record for the single unit-key group. -/
theorem groupBy_batch_semantics_c3_witness :
    (GroupByStream.Next
        (GroupBy.Get { items := [c1Record], terminal := Terminal.endOfStream }
          [] [] c1Slots)).2.source.items = [] ∧
    ([[Value.unitKey]] : List Key).Nodup ∧
    collectNext
        (GroupBy.Get { items := [c1Record], terminal := Terminal.endOfStream } [] [] c1Slots) 2 =
      [NewRecordFromSlice ["v_count"] [Value.int 1]] := by
  exact groupBy_batch_semantics_c3 [c1Record] [] [] c1Slots
    (fun r => r.asVariables) (fun _ => [])
    (by intro r hr; simp at hr; subst hr; rfl)
    (by intro r hr; simp at hr; subst hr; rfl)
    (by
      intro a haa stt kk vv
      simp [c1Slots] at haa
      subst haa
      exact ⟨_, rfl⟩)
    (by
      intro a haa stt kk
      simp [c1Slots] at haa
      subst haa
      exact ⟨_, rfl⟩)

/-- Appending child-edge lists concatenates their list views. -/
theorem GChildren.toList_append : ∀ (a b : GChildren),
    (a.append b).toList = a.toList ++ b.toList
  | GChildren.nil, b => rfl
  | GChildren.cons n c t, b => by
    simp [GChildren.append, GChildren.toList, GChildren.toList_append t b]

/-- The list view of a child-edge list is injective. -/
theorem GChildren.toList_inj : ∀ (a b : GChildren), a.toList = b.toList → a = b
  | GChildren.nil, GChildren.nil, _ => rfl
  | GChildren.nil, GChildren.cons n2 c2 t2, hb => by simp [GChildren.toList] at hb
  | GChildren.cons n c t, GChildren.nil, hb => by simp [GChildren.toList] at hb
  | GChildren.cons n c t, GChildren.cons n2 c2 t2, hb => by
    have hb2 : (n, c) :: t.toList = (n2, c2) :: t2.toList := hb
    injection hb2 with hpair ht
    injection hpair with hn hc
    rw [hn, hc, GChildren.toList_inj t t2 ht]

/-- Reversal of a child-edge list is a permutation of it. -/
theorem GChildren.rev_perm : ∀ l : GChildren, (GChildren.rev l).toList.Perm l.toList
  | GChildren.nil => List.Perm.refl _
  | GChildren.cons n c t => by
    simp only [GChildren.rev, GChildren.toList_append, GChildren.toList]
    exact (List.perm_append_singleton _ _).trans (List.Perm.cons _ (GChildren.rev_perm t))

/-- The table-valued function vertex has one argument edge per map entry. -/
theorem describeTVFChildren_length (ord : GChildren → GChildren) : ∀ (as : TVFArgs),
    (describeTVFChildren ord as).toList.length = as.argCount
  | TVFArgs.nil => rfl
  | TVFArgs.cons n a t => by
    simp [describeTVFChildren, GChildren.toList, TVFArgs.argCount,
      describeTVFChildren_length ord t]

/-- A permutation of a list of length at most one is the identity. -/
theorem perm_len_le_one_eq {α : Type} : ∀ (c d : List α), c.Perm d → d.length ≤ 1 → c = d := by
  intro c d hp hd
  match d, hd with
  | [], _ => exact hp.eq_nil
  | [a], _ => exact List.perm_singleton.mp hp
  | a :: b :: t, hd => simp at hd

/-- A valid map-iteration order fixes argument-edge lists of length at most
one. -/
theorem ord_fix (ord : GChildren → GChildren)
    (h : ∀ l : GChildren, (ord l).toList.Perm l.toList) (c : GChildren)
    (hc : c.toList.length ≤ 1) : ord c = c :=
  GChildren.toList_inj _ _ (perm_len_le_one_eq _ _ (h c) hc)

mutual

/-- Describe is independent of the map-iteration order on plans whose
table-valued function nodes have at most one argument. -/
theorem describeNode_canon (ord : GChildren → GChildren)
    (h : ∀ l : GChildren, (ord l).toList.Perm l.toList) :
    ∀ (n : PNode), PNode.noMulti n = true → describeNode ord n = describeNode (fun c => c) n
  | PNode.datasource dsName predicates, hn => by
    simp only [PNode.noMulti] at hn
    cases predicates with
    | nil => rfl
    | cons p ps =>
      simp only [describeNode]
      rw [describeArgChildren_canon ord h 0 (PExprs.cons p ps) hn]
  | PNode.distinct source, hn => by
    simp only [PNode.noMulti] at hn
    simp only [describeNode]
    rw [describeNode_canon ord h source hn]
  | PNode.filter predicate source, hn => by
    simp only [PNode.noMulti, Bool.and_eq_true] at hn
    simp only [describeNode]
    rw [describeExpr_canon ord h predicate hn.1, describeNode_canon ord h source hn.2]
  | PNode.groupBy aggregates key source, hn => by
    simp only [PNode.noMulti, Bool.and_eq_true] at hn
    simp only [describeNode]
    rw [describeNode_canon ord h source hn.2.2,
      describeArgChildren_canon ord h 0 key hn.2.1,
      describeNamedChildren_canon ord h aggregates _ hn.1]
  | PNode.streamJoin left right leftKey rightKey, hn => by
    simp only [PNode.noMulti, Bool.and_eq_true] at hn
    simp only [describeNode]
    rw [describeNode_canon ord h left hn.1, describeNode_canon ord h right hn.2.1,
      describeArgChildren_canon ord h 0 leftKey hn.2.2.1,
      describeArgChildren_canon ord h 0 rightKey hn.2.2.2]
  | PNode.lookupJoin source joined, hn => by
    simp only [PNode.noMulti, Bool.and_eq_true] at hn
    simp only [describeNode]
    rw [describeNode_canon ord h source hn.1, describeNode_canon ord h joined hn.2]
  | PNode.mapNode outputs source, hn => by
    simp only [PNode.noMulti, Bool.and_eq_true] at hn
    simp only [describeNode]
    rw [describeNode_canon ord h source hn.2,
      describeNamedChildren_canon ord h outputs _ hn.1]
  | PNode.orderBy key source, hn => by
    simp only [PNode.noMulti, Bool.and_eq_true] at hn
    simp only [describeNode]
    rw [describeNode_canon ord h source hn.2,
      describeDirChildren_canon ord h key _ hn.1]
  | PNode.requalifier qualifier source, hn => by
    simp only [PNode.noMulti] at hn
    simp only [describeNode]
    rw [describeNode_canon ord h source hn]
  | PNode.tableValuedFunction tvfName arguments, hn => by
    simp only [PNode.noMulti, Bool.and_eq_true, decide_eq_true_eq] at hn
    simp only [describeNode]
    rw [describeTVFChildren_canon ord h arguments hn.2]
    rw [ord_fix ord h (describeTVFChildren (fun c => c) arguments)
      (by rw [describeTVFChildren_length]; exact hn.1)]
  | PNode.unnest unnestField source, hn => by
    simp only [PNode.noMulti] at hn
    simp only [describeNode]
    rw [describeNode_canon ord h source hn]

/-- Order-independence for expressions. -/
theorem describeExpr_canon (ord : GChildren → GChildren)
    (h : ∀ l : GChildren, (ord l).toList.Perm l.toList) :
    ∀ (e : PExpr), PExpr.noMulti e = true → describeExpr ord e = describeExpr (fun c => c) e
  | PExpr.varRef varName isLevel0, _ => rfl
  | PExpr.constant valueRendering, _ => rfl
  | PExpr.functionCall funcName arguments, hn => by
    simp only [PExpr.noMulti] at hn
    simp only [describeExpr]
    rw [describeArgChildren_canon ord h 0 arguments hn]
  | PExpr.and arguments, hn => by
    simp only [PExpr.noMulti] at hn
    simp only [describeExpr]
    rw [describeArgChildren_canon ord h 0 arguments hn]
  | PExpr.or arguments, hn => by
    simp only [PExpr.noMulti] at hn
    simp only [describeExpr]
    rw [describeArgChildren_canon ord h 0 arguments hn]
  | PExpr.queryExpression source, hn => by
    simp only [PExpr.noMulti] at hn
    simp only [describeExpr]
    rw [describeNode_canon ord h source hn]
  | PExpr.coalesce arguments, hn => by
    simp only [PExpr.noMulti] at hn
    simp only [describeExpr]
    rw [describeArgChildren_canon ord h 0 arguments hn]
  | PExpr.tuple arguments, hn => by
    simp only [PExpr.noMulti] at hn
    simp only [describeExpr]
    rw [describeArgChildren_canon ord h 0 arguments hn]
  | PExpr.typeAssertion targetType expression, hn => by
    simp only [PExpr.noMulti] at hn
    simp only [describeExpr]
    rw [describeExpr_canon ord h expression hn]

/-- Order-independence for `arg_%d`-named child lists. -/
theorem describeArgChildren_canon (ord : GChildren → GChildren)
    (h : ∀ l : GChildren, (ord l).toList.Perm l.toList) :
    ∀ (i : Nat) (es : PExprs), PExprs.noMulti es = true →
      describeArgChildren ord i es = describeArgChildren (fun c => c) i es
  | _, PExprs.nil, _ => rfl
  | i, PExprs.cons e es, hn => by
    simp only [PExprs.noMulti, Bool.and_eq_true] at hn
    simp only [describeArgChildren]
    rw [describeExpr_canon ord h e hn.1, describeArgChildren_canon ord h (i + 1) es hn.2]

/-- Order-independence for named child lists. -/
theorem describeNamedChildren_canon (ord : GChildren → GChildren)
    (h : ∀ l : GChildren, (ord l).toList.Perm l.toList) :
    ∀ (es : NamedExprs) (rest : GChildren), NamedExprs.noMulti es = true →
      describeNamedChildren ord es rest = describeNamedChildren (fun c => c) es rest
  | NamedExprs.nil, rest, _ => rfl
  | NamedExprs.cons nm e es, rest, hn => by
    simp only [NamedExprs.noMulti, Bool.and_eq_true] at hn
    simp only [describeNamedChildren]
    rw [describeExpr_canon ord h e hn.1, describeNamedChildren_canon ord h es rest hn.2]

/-- Order-independence for direction-named child lists. -/
theorem describeDirChildren_canon (ord : GChildren → GChildren)
    (h : ∀ l : GChildren, (ord l).toList.Perm l.toList) :
    ∀ (es : DirExprs) (rest : GChildren), DirExprs.noMulti es = true →
      describeDirChildren ord es rest = describeDirChildren (fun c => c) es rest
  | DirExprs.nil, rest, _ => rfl
  | DirExprs.cons m e es, rest, hn => by
    simp only [DirExprs.noMulti, Bool.and_eq_true] at hn
    simp only [describeDirChildren]
    rw [describeExpr_canon ord h e hn.1, describeDirChildren_canon ord h es rest hn.2]

/-- Order-independence for the canonical argument-edge list. -/
theorem describeTVFChildren_canon (ord : GChildren → GChildren)
    (h : ∀ l : GChildren, (ord l).toList.Perm l.toList) :
    ∀ (as : TVFArgs), TVFArgs.noMulti as = true →
      describeTVFChildren ord as = describeTVFChildren (fun c => c) as
  | TVFArgs.nil, _ => rfl
  | TVFArgs.cons nm a as, hn => by
    simp only [TVFArgs.noMulti, Bool.and_eq_true] at hn
    simp only [describeTVFChildren]
    rw [describeTVFArg_canon ord h a hn.1, describeTVFChildren_canon ord h as hn.2]

/-- Order-independence for a single table-valued function argument. -/
theorem describeTVFArg_canon (ord : GChildren → GChildren)
    (h : ∀ l : GChildren, (ord l).toList.Perm l.toList) :
    ∀ (a : TVFArg), TVFArg.noMulti a = true →
      describeTVFArg ord a = describeTVFArg (fun c => c) a
  | TVFArg.expression e, hn => by
    simp only [TVFArg.noMulti] at hn
    simp only [describeTVFArg]
    rw [describeExpr_canon ord h e hn]
  | TVFArg.table t, hn => by
    simp only [TVFArg.noMulti] at hn
    simp only [describeTVFArg]
    rw [describeNode_canon ord h t hn]
  | TVFArg.descriptor d, _ => rfl

end

/-- C6: the claim asserts `DescribeNode` is deterministic for every physical
plan node, including the order of child edges.  `DescribeNode` iterates the
`TableValuedFunction.Arguments` Go map with `range` (part_000 lines 100-116),
whose iteration order is unspecified and randomized, so two calls on the same
node may emit the argument edges of a multi-argument table-valued function in
different orders (see the counterexample).  Amended statement proved here:
for every plan whose table-valued function nodes have at most one argument,
`DescribeNode` under any two valid iteration orders (each a permutation of
the argument edges) produces identical DAGs - same vertices, labels, fields
and child-edge order. -/
theorem describeNode_deterministic_c6 (ord1 ord2 : GChildren → GChildren)
    (h1 : ∀ l : GChildren, (ord1 l).toList.Perm l.toList)
    (h2 : ∀ l : GChildren, (ord2 l).toList.Perm l.toList)
    (n : PNode) (hn : PNode.noMulti n = true) :
    describeNode ord1 n = describeNode ord2 n :=
  (describeNode_canon ord1 h1 n hn).trans (describeNode_canon ord2 h2 n hn).symm

/-- C6 counterexample: on a two-argument table-valued function node, the
identity iteration order and the reversed iteration order (a legitimate
permutation, second conjunct) produce structurally different DAGs. -/
theorem describeNode_c6_counterexample :
    describeNode (fun c => c) c6Node ≠ describeNode GChildren.rev c6Node ∧
      (GChildren.rev (describeTVFChildren GChildren.rev c6Args)).toList.Perm
        (describeTVFChildren GChildren.rev c6Args).toList := by
  exact ⟨by decide, GChildren.rev_perm _⟩

/-- C6 witness: the amended determinism theorem applied at a one-argument
table-valued function node under two distinct valid orders. -/
theorem describeNode_c6_witness :
    describeNode (fun c => c)
        (PNode.tableValuedFunction "range"
          (TVFArgs.cons "n" (TVFArg.descriptor "d") TVFArgs.nil)) =
      describeNode GChildren.rev
        (PNode.tableValuedFunction "range"
          (TVFArgs.cons "n" (TVFArg.descriptor "d") TVFArgs.nil)) :=
  describeNode_deterministic_c6 (fun c => c) GChildren.rev
    (fun _ => List.Perm.refl _) GChildren.rev_perm _ (by decide)

/-- C7: every panic raised inside `Typecheck` of a logical node or expression
is caught by the deferred recover of `typecheckNode` / `typecheckExpr`
(root.go lines 494-520) and converted into the non-nil returned error
`typecheck error: <panic value>`; a normal result passes through unchanged, so
no panic escapes the typecheck boundary. -/
theorem typecheck_recover_c7 :
    (∀ (Node Mapping : Type) (msg : String),
      typecheckNode Node Mapping (GoResult.panicked msg) =
        Except.error ("typecheck error: " ++ msg)) ∧
    (∀ (Node Mapping : Type) (v : Node × Mapping),
      typecheckNode Node Mapping (GoResult.ok v) = Except.ok v) ∧
    (∀ (Expr : Type) (msg : String),
      typecheckExpr Expr (GoResult.panicked msg) =
        Except.error ("typecheck error: " ++ msg)) ∧
    (∀ (Expr : Type) (v : Expr), typecheckExpr Expr (GoResult.ok v) = Except.ok v) :=
  ⟨fun _ _ _ => rfl, fun _ _ _ => rfl, fun _ _ => rfl, fun _ _ => rfl⟩

/-- C8: the claim asserts every stream_native query carrying a LIMIT clause is
rejected with the Unsupported error.  But root.go lines 277-293 absorb the
LIMIT into a physical `Limit` node and zero `outputOptions.Limit` whenever the
plan schema has `NoRetractions` (and describe mode zeroes it too, line 310),
so the stream_native check at lines 451-453 no longer sees it.  Amended
statement proved here: a stream_native run is rejected with that error if and
only if it is a non-describe run over a retraction-capable plan with a
positive LIMIT. -/
theorem runE_limit_stream_c8 (cfg : RunConfig) (hout : cfg.output = "stream_native") :
    runESelectSink cfg = Except.error "LIMIT clause not supported with stream output" ↔
      (cfg.describe = false ∧ cfg.planNoRetractions = false ∧ 0 < cfg.limit) := by
  obtain ⟨d, out, lim, obc, noRetr⟩ := cfg
  simp only at hout
  subst hout
  cases d <;> cases noRetr <;>
    by_cases hobc : 0 < obc <;> by_cases hlim : 0 < lim <;>
      simp [runESelectSink, hobc, hlim] <;> omega

/-- C8 counterexample: a non-describe stream_native run with `LIMIT 3` over a
`NoRetractions` plan is NOT rejected - the sink is selected and the limit was
absorbed into the plan - refuting the claim that every stream_native query
with a LIMIT clause is rejected. -/
theorem runE_limit_stream_c8_counterexample :
    runESelectSink
        { describe := false, output := "stream_native", limit := 3,
          orderByCount := 0, planNoRetractions := true } =
      Except.ok (Sink.nativeStream false) ∧ 0 < (3 : Nat) := by
  exact ⟨rfl, by decide⟩

/-- C8 witness: the amended equivalence applied at a concrete retraction-
capable stream_native run with a positive limit, which is rejected. -/
theorem runE_limit_stream_c8_witness :
    runESelectSink
        { describe := false, output := "stream_native", limit := 5,
          orderByCount := 0, planNoRetractions := false } =
      Except.error "LIMIT clause not supported with stream output" :=
  (runE_limit_stream_c8
    { describe := false, output := "stream_native", limit := 5,
      orderByCount := 0, planNoRetractions := false } rfl).mpr ⟨rfl, rfl, by decide⟩

/-- C9: for the csv and json output formats, the eager append-only sink is
selected if and only if the plan schema has `NoRetractions` (root.go
lines 398-441); otherwise the retraction-aware batch sink with the matching
formatter is selected, so the eager sink never receives a retraction-capable
stream. -/
theorem runE_eager_sink_c9 (cfg : RunConfig)
    (hout : cfg.output = "csv" ∨ cfg.output = "json") :
    ((∃ s, runESelectSink cfg = Except.ok s ∧ s.isEager = true) ↔
      cfg.planNoRetractions = true) ∧
    (cfg.planNoRetractions = false →
      runESelectSink cfg =
        Except.ok (Sink.batchPrinter false cfg.output
          (if cfg.describe then 0 else cfg.limit))) := by
  obtain ⟨d, out, lim, obc, noRetr⟩ := cfg
  rcases hout with hout | hout <;>
    · simp only at hout
      subst hout
      cases noRetr <;> cases d <;> simp [runESelectSink, Sink.isEager]

/-- C9 witness: the equivalence applied at a concrete `NoRetractions` csv run
selects the eager sink. -/
theorem runE_eager_sink_c9_witness :
    ∃ s, runESelectSink
        { describe := false, output := "csv", limit := 0,
          orderByCount := 0, planNoRetractions := true } = Except.ok s ∧
      s.isEager = true :=
  (runE_eager_sink_c9
    { describe := false, output := "csv", limit := 0,
      orderByCount := 0, planNoRetractions := true } (Or.inl rfl)).1.mpr rfl

/-- A fired `sync.Once` guard makes the accessor a pure function of its
captured state. -/
theorem dbAccessor_stable (dbType dbName : String) (runPlugin : Except String String)
    (st : OnceState) (hdone : st.done = true) :
    (dbAccessor dbType dbName runPlugin st).2 = st := by
  simp only [dbAccessor, hdone]
  split <;> rfl

/-- Invoking from a state whose guard has fired replays the same result
without touching the state. -/
theorem invokeRepeatedly_stable (dbType dbName : String)
    (runPlugin : Except String String) : ∀ (k : Nat) (st : OnceState), st.done = true →
    (invokeRepeatedly dbType dbName runPlugin st k).1 =
      List.replicate k ((dbAccessor dbType dbName runPlugin st).1) ∧
    (invokeRepeatedly dbType dbName runPlugin st k).2 = st := by
  intro k
  induction k with
  | zero => intro st hdone; exact ⟨rfl, rfl⟩
  | succ n ih =>
    intro st hdone
    have hst := dbAccessor_stable dbType dbName runPlugin st hdone
    obtain ⟨h1, h2⟩ := ih st hdone
    cases hfd : dbAccessor dbType dbName runPlugin st with
    | mk r1 st1 =>
      rw [hfd] at hst
      simp only at hst
      rw [hfd] at h1
      simp only at h1
      simp only [invokeRepeatedly, hfd, hst, h1, h2, List.replicate_succ]
      refine ⟨?_, ?_⟩ <;> first
        | rfl
        | trivial

/-- The first invocation from the fresh state fires the guard exactly once and
fixes the captured result. -/
theorem dbAccessor_fresh (dbType dbName : String) (runPlugin : Except String String) :
    (dbAccessor dbType dbName runPlugin freshOnce).2.done = true ∧
    (dbAccessor dbType dbName runPlugin freshOnce).2.calls = 1 ∧
    dbAccessor dbType dbName runPlugin
        ((dbAccessor dbType dbName runPlugin freshOnce).2) =
      dbAccessor dbType dbName runPlugin freshOnce := by
  cases runPlugin <;> simp [dbAccessor, freshOnce]

/-- C10: each configured database accessor closure (root.go lines 132-148,
170-189) runs its plugin at most once across all invocations: after the first
invocation the `sync.Once` guard has fired exactly once, every invocation
(first and later) returns the same value, and when the first run fails the
same wrapped error is returned on every invocation without re-running the
plugin. -/
theorem db_accessor_once_c10 (dbType dbName : String)
    (runPlugin : Except String String) (k : Nat) :
    (invokeRepeatedly dbType dbName runPlugin freshOnce (k + 1)).1 =
      List.replicate (k + 1) ((dbAccessor dbType dbName runPlugin freshOnce).1) ∧
    (invokeRepeatedly dbType dbName runPlugin freshOnce (k + 1)).2.calls = 1 ∧
    (∀ e, runPlugin = Except.error e →
      (dbAccessor dbType dbName runPlugin freshOnce).1 =
        Except.error ("could not run " ++ dbType ++ " plugin " ++ dbName ++ ": " ++ e)) := by
  have hthird : ∀ e, runPlugin = Except.error e →
      (dbAccessor dbType dbName runPlugin freshOnce).1 =
        Except.error ("could not run " ++ dbType ++ " plugin " ++ dbName ++ ": " ++ e) := by
    intro e he
    subst he
    simp [dbAccessor, freshOnce]
  obtain ⟨hdone, hcalls, hrepeat⟩ := dbAccessor_fresh dbType dbName runPlugin
  cases hfd : dbAccessor dbType dbName runPlugin freshOnce with
  | mk r1 st1 =>
    rw [hfd] at hdone hcalls hrepeat hthird
    simp only at hdone hcalls hrepeat hthird
    obtain ⟨h1, h2⟩ := invokeRepeatedly_stable dbType dbName runPlugin k st1 hdone
    rw [hrepeat] at h1
    simp only at h1
    refine ⟨?_, ?_, hthird⟩
    · simp only [invokeRepeatedly, hfd, h1, List.replicate_succ]
    · simp only [invokeRepeatedly, hfd, h2]
      exact hcalls

/-- C10 witness: a failing plugin run is wrapped once and replayed. -/
theorem db_accessor_once_c10_witness :
    (dbAccessor "postgres" "mydb" (Except.error "boom") freshOnce).1 =
      Except.error "could not run postgres plugin mydb: boom" :=
  (db_accessor_once_c10 "postgres" "mydb" (Except.error "boom") 1).2.2 "boom" rfl
